import Mathlib

/-!
Shallow embedding of `src/ecoff_fitter/wts.py` (ECOFFitter): the antibiogram
generation engine and the two wild-type classifiers (`nonsilent_WT`,
`erj2022_WT`), together with the joblib-backed prediction memoizer.

Variant notations and gene names are modelled as `List Char` (Python `str`
viewed as a character sequence, so that `str.split`, `s[0]` and `s[-1]` have
direct counterparts); sample identifiers, drug names and resistance calls
stay `String` since the code only ever compares them for equality.
A missing (`NaN`) table cell is `Option.none`.  Fallible evaluation (a Python
`IndexError`) is `Option`; the fallible pool construction is `Except`.
-/

namespace ECOFFitter

instance {ε α : Type} [DecidableEq ε] [DecidableEq α] : DecidableEq (Except ε α) := fun a b =>
  match a, b with
  | .error x, .error y =>
    if h : x = y then .isTrue (by rw [h]) else .isFalse (by intro hc; cases hc; exact h rfl)
  | .ok x, .ok y =>
    if h : x = y then .isTrue (by rw [h]) else .isFalse (by intro hc; cases hc; exact h rfl)
  | .error _, .ok _ => .isFalse (by intro hc; cases hc)
  | .ok _, .error _ => .isFalse (by intro hc; cases hc)

/-- A row of the input mutation table: `(UNIQUEID, GENE, MUTATION)`;
`MUTATION` may be missing (`pd.isna`). -/
structure MutRow where
  uniqueid : String
  gene : List Char
  mutation : Option (List Char)
deriving Repr, DecidableEq

/-- A row of the catalogue CSV: `(MUTATION, DRUG, PREDICTION)`. -/
structure CatRow where
  mutation : List Char
  drug : String
  prediction : String
deriving Repr, DecidableEq

/-- Duck-typed result of `piezo.ResistanceCatalogue.predict`: either a dict
mapping drug names to calls, or a single scalar call. -/
inductive PredictResult where
  | perDrug (m : List (String × String))
  | scalar (s : String)
deriving Repr, DecidableEq

/-- Python `str.split(sep)` (split on every occurrence, keeping empty
pieces): `"a@b".split("@") = ["a","b"]`, `"".split("@") = [""]`,
`"@".split("@") = ["",""]`. -/
def splitOnChar (sep : Char) : List Char → List (List Char)
  | [] => [[]]
  | c :: rest =>
    match splitOnChar sep rest with
    | [] => [[]]
    | g :: gs => if c = sep then [] :: g :: gs else (c :: g) :: gs

/-- `m.split("@")[-1]` — the trailing component of a variant notation
(wts.py line 95).  For a notation without `@` this is the whole string. -/
def varSuffix (m : List Char) : List Char :=
  (splitOnChar '@' m).getLastD []

/-- `cat["MUTATION"].str.split("@", n=1).str[0]` (wts.py line 135) — the
gene part of a catalogue row's variant notation.  The head of the full
split equals the head of the 1-bounded split. -/
def rowGene (r : CatRow) : List Char :=
  (splitOnChar '@' r.mutation).headD []

/-- Python `dict.get(drug, "S")` on the per-drug mapping, modelled as
first-match lookup over an association list. -/
def dictGet : List (String × String) → String → String
  | [], _ => "S"
  | e :: es, d => if e.1 = d then e.2 else dictGet es d

/-- `result.get(drug, "S") if isinstance(result, dict) else result`
(wts.py line 81): resolve the duck-typed catalogue result for one drug. -/
def resolvePredict (r : PredictResult) (drug : String) : String :=
  match r with
  | .perDrug m => dictGet m drug
  | .scalar s => s

/-- The per-mutation call of `process_antibiogram` (wts.py lines 58-65):
`"S" if pd.isna(var) else cached_predict(var, drug, catalogue_path)`.
The `predict` argument abstracts `catalogue.predict` (the external piezo
catalogue, closed over the catalogue path).  The second component counts
invocations of the Catalogue Gateway (`cached_predict`); note that
`pd.isna("") = False`, so an empty — but present — notation is sent to
the catalogue. -/
def mutationCall (predict : List Char → PredictResult) (drug : String)
    (m : MutRow) : String × Nat :=
  match m.mutation with
  | none => ("S", 0)
  | some var => (resolvePredict (predict var) drug, 1)

/-- The aggregation of per-mutation calls (wts.py lines 66-70):
`"R" if "R" in preds.values else ("U" if "U" in preds.values else "S")`. -/
def aggregate (preds : List String) : String :=
  if "R" ∈ preds then "R" else if "U" ∈ preds then "U" else "S"

/-- One drug's call for one sample (the body of the `for drug, genes` loop,
wts.py lines 52-71), paired with the number of Catalogue Gateway
invocations it performs. -/
def drugCall (predict : List Char → PredictResult) (isoMuts : List MutRow)
    (drug : String) (genes : List (List Char)) : String × Nat :=
  let muts := isoMuts.filter (fun m => decide (m.gene ∈ genes))
  if muts.isEmpty then ("S", 0)
  else
    let calls := muts.map (mutationCall predict drug)
    (aggregate (calls.map Prod.fst), (calls.map Prod.snd).sum)

/-- `gWTBase.process_antibiogram` (wts.py lines 46-73) for one sample:
the ordered per-drug call vector, plus the total number of Catalogue
Gateway invocations made on this sample's behalf. -/
def processAntibiogram (predict : List Char → PredictResult)
    (isoMuts : List MutRow) (drugGenesMap : List (String × List (List Char))) :
    List String × Nat :=
  let per := drugGenesMap.map (fun dg => drugCall predict isoMuts dg.1 dg.2)
  (per.map Prod.fst, (per.map Prod.snd).sum)

/-- `mutations.index.unique()` after `set_index("UNIQUEID")` (wts.py
lines 25-33): the distinct sample identifiers.  pandas keeps first
occurrences; only membership is consumed downstream, so `dedup` (which
keeps the same set) is an adequate embedding. -/
def uniqueUids (mutations : List MutRow) : List String :=
  (mutations.map (·.uniqueid)).dedup

/-- The rows of one sample (`mutations.groupby("UNIQUEID")`, wts.py
lines 26-28). -/
def isoMutsOf (mutations : List MutRow) (uid : String) : List MutRow :=
  mutations.filter (fun m => decide (m.uniqueid = uid))

/-- `min(cores, len(tasks))` — the process count handed to `ctx.Pool`
(wts.py line 38). -/
def requestedPoolSize (mutations : List MutRow) (cores : Nat) : Nat :=
  Nat.min cores (uniqueUids mutations).length

/-- `gWTBase.parallel_antibiogram` (wts.py lines 24-44).  CPython's
`multiprocessing.Pool` raises `ValueError("Number of processes must be at
least 1")` when constructed with `processes < 1`, which happens exactly
when the task list is empty; that documented behaviour is modelled by the
`Except.error` branch.  `imap_unordered` yields one `(uid, calls)` pair per
task in arbitrary order, collected into a dict; the dict is modelled as an
association list in task order (claims only consume membership). -/
def parallel_antibiogram (predict : List Char → PredictResult)
    (mutations : List MutRow) (drugGenesMap : List (String × List (List Char)))
    (cores : Nat) : Except String (List (String × List String)) :=
  let tasks := (uniqueUids mutations).map (fun uid => (uid, isoMutsOf mutations uid))
  if requestedPoolSize mutations cores = 0 then
    Except.error "Number of processes must be at least 1"
  else
    Except.ok (tasks.map (fun t => (t.1, (processAntibiogram predict t.2 drugGenesMap).1)))

/-- The genes with at least one catalogue row predicting `"R"`
(`R_genes`, wts.py line 136). -/
def RGenes (cat : List CatRow) : List (List Char) :=
  ((cat.filter (fun r => decide (r.prediction = "R"))).map rowGene).dedup

/-- `cat_R` (wts.py line 137): the catalogue rows whose gene is a
resistance gene. -/
def catR (cat : List CatRow) : List CatRow :=
  cat.filter (fun r => decide (rowGene r ∈ RGenes cat))

/-- One drug's resistant-gene set (wts.py lines 140-143): the genes of
`cat_R` rows for that drug, deduplicated. -/
def drugGenes (cat : List CatRow) (drug : String) : List (List Char) :=
  (((catR cat).filter (fun r => decide (r.drug = drug))).map rowGene).dedup

/-- `erj2022_WT.inf_vars` (wts.py lines 130-146): the input mutations
restricted to resistance genes, and the drug → resistant-genes mapping
over the panel. -/
def infVars (cat : List CatRow) (drugs : List String) (mutations : List MutRow) :
    List MutRow × List (String × List (List Char)) :=
  (mutations.filter (fun m => decide (m.gene ∈ RGenes cat)),
   drugs.map (fun d => (d, drugGenes cat d)))

/-- The fixed 9-drug panel of `erj2022_WT` (wts.py line 104). -/
def erj2022Drugs : List String :=
  ["RIF", "INH", "EMB", "PZA", "AMI", "KAN", "LEV", "MXF", "ETH"]

/-- The threshold rule of `erj2022_WT.identify` (wts.py lines 117-125):
`results[0:4]` all `"S"` and `results[4:9]` all in `{"S","U"}`. -/
def gWTVerdict (results : List String) : Bool :=
  ((results.take 4).all (fun p => p == "S")) &&
  (((results.drop 4).take 5).all (fun p => p == "S" || p == "U"))

/-- `erj2022_WT.identify` (wts.py lines 106-128): the whole
inferred-antibiogram pipeline, from the raw mutation table and catalogue
table to the per-sample wild-type verdict mapping. -/
def erj2022_identify (predict : List Char → PredictResult)
    (mutations : List MutRow) (cat : List CatRow) (cores : Nat) :
    Except String (List (String × Bool)) :=
  let p := infVars cat erj2022Drugs mutations
  match parallel_antibiogram predict p.1 p.2 cores with
  | .error e => .error e
  | .ok antibiograms => .ok (antibiograms.map (fun ab => (ab.1, gWTVerdict ab.2)))

/-- Modelled from the spec: the Prediction Memoizer (§4.2).  The code
delegates it to the external `joblib.Memory` decorator on `cached_predict`
(wts.py lines 8-9, 75-81), which is not part of this repository; the spec
describes it as a cache keyed by `(mutation, drug, catalogue identity)`
whose `getOrCompute(key, computeFn)` returns the stored value on a hit and
computes, stores and returns it on a miss.  The cache is an association
list from keys to calls. -/
def cacheLookup {κ : Type} [DecidableEq κ] : List (κ × String) → κ → Option String
  | [], _ => none
  | e :: es, k => if e.1 = k then some e.2 else cacheLookup es k

/-- Modelled from the spec: one memoized call (`getOrCompute`), returning
the call, the updated cache, and whether the underlying compute function
was invoked. -/
def getOrCompute {κ : Type} [DecidableEq κ] (c : List (κ × String)) (k : κ)
    (f : κ → String) : String × List (κ × String) × Bool :=
  match cacheLookup c k with
  | some v => (v, c, false)
  | none => (f k, (k, f k) :: c, true)

/-- Modelled from the spec: a sequence of memoized calls against one cache,
returning the trace of `(key, value, computed)` triples and the final
cache. -/
def runCalls {κ : Type} [DecidableEq κ] (f : κ → String) :
    List (κ × String) → List κ → List (κ × String × Bool) × List (κ × String)
  | c, [] => ([], c)
  | c, k :: ks =>
    let r := getOrCompute c k f
    let rest := runCalls f r.2.1 ks
    ((k, r.1, r.2.2) :: rest.1, rest.2)

/-- How many times the underlying compute function ran for key `k` during a
sequence of memoized calls. -/
def countComputes {κ : Type} [DecidableEq κ] (f : κ → String)
    (c : List (κ × String)) (ks : List κ) (k : κ) : Nat :=
  (((runCalls f c ks).1).filter (fun t => decide (t.1 = k) && t.2.2)).length

/-- Modelled from the spec: one process run of the memoizer.  wts.py line 8
opens the durable store (the `.piezo_cache` directory, holding whatever a
previous run persisted) and line 9 immediately executes
`memory.clear(warn=False)`, so the run proceeds from an empty cache
regardless of the persisted contents. -/
def processRun {κ : Type} [DecidableEq κ] (f : κ → String)
    (_persisted : List (κ × String)) (keys : List κ) :
    List (κ × String × Bool) × List (κ × String) :=
  runCalls f [] keys

/-- The per-mutation synonymy test of `nonsilent_WT.identify` (wts.py
line 95): `m.split("@")[-1][0] == m.split("@")[-1][-1]`.  Indexing into an
empty suffix raises `IndexError` in Python, modelled by `none`. -/
def silentCheck (m : List Char) : Option Bool :=
  match (varSuffix m).head?, (varSuffix m).getLast? with
  | some a, some b => some (a = b)
  | _, _ => none

/-- Python's short-circuiting `all(... for m in mutations)` over the
synonymy test: a `False` before a crashing element hides the crash. -/
def allSilent : List (List Char) → Option Bool
  | [] => some true
  | m :: ms =>
    match silentCheck m with
    | none => none
    | some false => some false
    | some true => allSilent ms

/-- `nonsilent_WT.identify` for one sample's `MUTATION` column (wts.py
lines 88-99): drop missing entries; no mutations ⇒ wild-type; otherwise
wild-type iff every mutation passes the synonymy test. -/
def nonsilentSample (muts : List (Option (List Char))) : Option Bool :=
  let ms := muts.filterMap id
  if ms.isEmpty then some true else allSilent ms

/-- A catalogue oracle that calls everything resistant (a concrete
instantiation of `piezo.ResistanceCatalogue.predict` for witnesses). -/
def constR : List Char → PredictResult := fun _ => .scalar "R"

/-- The catalogue of §8's Drug-Gene Mapper example. -/
def exCat : List CatRow :=
  [⟨"geneA@X1Y".data, "DRUG1", "R"⟩,
   ⟨"geneB@X2Y".data, "DRUG1", "S"⟩,
   ⟨"geneA@X3Y".data, "DRUG2", "R"⟩]

/-- A one-row catalogue whose only resistance gene is `geneA` (for `RIF`). -/
def cat0 : List CatRow := [⟨"geneA@X1Y".data, "RIF", "R"⟩]

/-- Two samples: `s1` carries only a mutation outside every resistance gene
of `cat0`, `s2` carries a `geneA` mutation. -/
def mutations0 : List MutRow :=
  [⟨"s1", "geneX".data, some "geneX@A1B".data⟩,
   ⟨"s2", "geneA".data, some "geneA@X1Y".data⟩]

/-- A concrete memoizer key: (mutation variant, drug, catalogue identity). -/
def key0 : List Char × String × String := ("geneA@X1Y".data, "RIF", "catalogue.csv")

/-- A concrete pure compute function for the memoizer witnesses. -/
def predR : List Char × String × String → String := fun _ => "R"

/-! ## Helper lemmas -/

theorem mem_RGenes_iff (cat : List CatRow) (g : List Char) :
    g ∈ RGenes cat ↔ ∃ r ∈ cat, r.prediction = "R" ∧ rowGene r = g := by
  simp only [RGenes, List.mem_dedup, List.mem_map, List.mem_filter,
    decide_eq_true_eq]
  constructor
  · rintro ⟨r, ⟨hr, hp⟩, rfl⟩
    exact ⟨r, hr, hp, rfl⟩
  · rintro ⟨r, hr, hp, rfl⟩
    exact ⟨r, ⟨hr, hp⟩, rfl⟩

theorem mem_drugGenes_iff (cat : List CatRow) (d : String) (g : List Char) :
    g ∈ drugGenes cat d ↔
      g ∈ RGenes cat ∧ ∃ r ∈ cat, r.drug = d ∧ rowGene r = g := by
  simp only [drugGenes, catR, List.mem_dedup, List.mem_map, List.mem_filter,
    decide_eq_true_eq]
  constructor
  · rintro ⟨r, ⟨⟨hr, hg⟩, hd⟩, rfl⟩
    exact ⟨hg, r, hr, hd, rfl⟩
  · rintro ⟨hg, r, hr, hd, rfl⟩
    exact ⟨r, ⟨⟨hr, hg⟩, hd⟩, rfl⟩

theorem mem_infVars_fst (cat : List CatRow) (drugs : List String)
    (mutations : List MutRow) (m : MutRow) :
    m ∈ (infVars cat drugs mutations).1 ↔ m ∈ mutations ∧ m.gene ∈ RGenes cat := by
  simp [infVars, List.mem_filter]

theorem splitOnChar_of_not_mem (sep : Char) (m : List Char) (h : sep ∉ m) :
    splitOnChar sep m = [m] := by
  induction m with
  | nil => rfl
  | cons c rest ih =>
    have hc : ¬ c = sep := fun hh => h (by simp [hh])
    have hr : splitOnChar sep rest = [rest] :=
      ih (fun hh => h (List.mem_cons_of_mem _ hh))
    simp [splitOnChar, hr, hc]

theorem silentCheck_of_ne_nil (m : List Char) (hm : varSuffix m ≠ []) :
    silentCheck m =
      some (decide ((varSuffix m).head? = (varSuffix m).getLast?)) := by
  unfold silentCheck
  rw [List.head?_eq_head hm, List.getLast?_eq_getLast _ hm]
  simp

theorem allSilent_spec (ms : List (List Char))
    (h : ∀ m ∈ ms, varSuffix m ≠ []) :
    (allSilent ms = some true ↔
       ∀ m ∈ ms, (varSuffix m).head? = (varSuffix m).getLast?) ∧
    (allSilent ms = some false ↔
       ∃ m ∈ ms, (varSuffix m).head? ≠ (varSuffix m).getLast?) := by
  induction ms with
  | nil => simp [allSilent]
  | cons m ms ih =>
    have hm := h m (by simp)
    have hms := ih (fun x hx => h x (List.mem_cons_of_mem _ hx))
    rw [allSilent, silentCheck_of_ne_nil m hm]
    by_cases heq : (varSuffix m).head? = (varSuffix m).getLast?
    · simp only [decide_eq_true heq]
      constructor
      · rw [hms.1]
        constructor
        · rintro hall x hx
          rcases List.mem_cons.mp hx with rfl | hx'
          · exact heq
          · exact hall x hx'
        · intro hall x hx; exact hall x (List.mem_cons_of_mem _ hx)
      · rw [hms.2]
        constructor
        · rintro ⟨x, hx, hne⟩; exact ⟨x, List.mem_cons_of_mem _ hx, hne⟩
        · rintro ⟨x, hx, hne⟩
          rcases List.mem_cons.mp hx with rfl | hx'
          · exact absurd heq hne
          · exact ⟨x, hx', hne⟩
    · simp only [decide_eq_false heq]
      constructor
      · constructor
        · intro hc; cases hc
        · intro hall; exact absurd (hall m (by simp)) heq
      · constructor
        · intro _; exact ⟨m, by simp, heq⟩
        · intro _; trivial

section MemoizerLemmas

variable {κ : Type} [DecidableEq κ]

theorem cacheLookup_some (f : κ → String) (c : List (κ × String))
    (hinv : ∀ e ∈ c, e.2 = f e.1) (k : κ) (v : String)
    (h : cacheLookup c k = some v) : v = f k := by
  induction c with
  | nil => simp [cacheLookup] at h
  | cons e es ih =>
    rw [cacheLookup] at h
    by_cases he : e.1 = k
    · rw [if_pos he] at h
      cases h
      rw [hinv e (by simp), he]
    · rw [if_neg he] at h
      exact ih (fun x hx => hinv x (List.mem_cons_of_mem _ hx)) h

theorem getOrCompute_fst (f : κ → String) (c : List (κ × String)) (k : κ)
    (hinv : ∀ e ∈ c, e.2 = f e.1) : (getOrCompute c k f).1 = f k := by
  unfold getOrCompute
  cases h : cacheLookup c k with
  | none => rfl
  | some v => exact cacheLookup_some f c hinv k v h

theorem getOrCompute_inv (f : κ → String) (c : List (κ × String)) (k : κ)
    (hinv : ∀ e ∈ c, e.2 = f e.1) :
    ∀ e ∈ (getOrCompute c k f).2.1, e.2 = f e.1 := by
  unfold getOrCompute
  cases h : cacheLookup c k with
  | none =>
    intro e he
    rcases List.mem_cons.mp he with rfl | hm
    · rfl
    · exact hinv e hm
  | some v => exact hinv

theorem cacheLookup_getOrCompute_self (f : κ → String) (c : List (κ × String))
    (k : κ) : (cacheLookup (getOrCompute c k f).2.1 k).isSome = true := by
  unfold getOrCompute
  cases h : cacheLookup c k with
  | none => simp [cacheLookup]
  | some v => simp [h]

theorem cacheLookup_getOrCompute_mono (f : κ → String) (c : List (κ × String))
    (k k' : κ) (h : (cacheLookup c k).isSome = true) :
    (cacheLookup (getOrCompute c k' f).2.1 k).isSome = true := by
  unfold getOrCompute
  cases hl : cacheLookup c k' with
  | none =>
    rw [cacheLookup]
    by_cases he : k' = k
    · simp [he]
    · rw [if_neg he]; exact h
  | some v => exact h

theorem runCalls_values (f : κ → String) (ks : List κ) :
    ∀ c : List (κ × String), (∀ e ∈ c, e.2 = f e.1) →
      ∀ t ∈ (runCalls f c ks).1, t.2.1 = f t.1 := by
  induction ks with
  | nil =>
    intro c _ t ht
    simp [runCalls] at ht
  | cons k ks ih =>
    intro c hinv t ht
    simp only [runCalls] at ht
    rcases List.mem_cons.mp ht with rfl | hm
    · exact getOrCompute_fst f c k hinv
    · exact ih _ (getOrCompute_inv f c k hinv) t hm

theorem countComputes_zero (f : κ → String) (ks : List κ) :
    ∀ (c : List (κ × String)) (k : κ), (cacheLookup c k).isSome = true →
      countComputes f c ks k = 0 := by
  induction ks with
  | nil => intro c k _; simp [countComputes, runCalls]
  | cons k' ks ih =>
    intro c k h
    unfold countComputes
    cases hl : cacheLookup c k' with
    | none =>
      have hne : ¬ k' = k := by
        intro he
        rw [he] at hl
        rw [hl] at h
        simp at h
      have hr : getOrCompute c k' f = (f k', (k', f k') :: c, true) := by
        unfold getOrCompute; rw [hl]
      have hmono : (cacheLookup ((k', f k') :: c) k).isSome = true := by
        rw [cacheLookup, if_neg hne]; exact h
      simp only [runCalls, hr, List.filter_cons, decide_eq_false hne,
        Bool.false_and, Bool.false_eq_true, if_false]
      exact ih _ k hmono
    | some v =>
      have hr : getOrCompute c k' f = (v, c, false) := by
        unfold getOrCompute; rw [hl]
      simp only [runCalls, hr, List.filter_cons, Bool.and_false,
        Bool.false_eq_true, if_false]
      exact ih c k h

theorem countComputes_le_one (f : κ → String) (ks : List κ) :
    ∀ (c : List (κ × String)) (k : κ), countComputes f c ks k ≤ 1 := by
  induction ks with
  | nil => intro c k; simp [countComputes, runCalls]
  | cons k' ks ih =>
    intro c k
    unfold countComputes
    cases hl : cacheLookup c k' with
    | none =>
      have hr : getOrCompute c k' f = (f k', (k', f k') :: c, true) := by
        unfold getOrCompute; rw [hl]
      by_cases he : k' = k
      · subst he
        have hsome : (cacheLookup ((k', f k') :: c) k').isSome = true := by
          rw [cacheLookup, if_pos rfl]; rfl
        have h0 : countComputes f ((k', f k') :: c) ks k' = 0 :=
          countComputes_zero f ks _ k' hsome
        unfold countComputes at h0
        simp only [runCalls, hr, List.filter_cons]
        simp [h0]
      · simp only [runCalls, hr, List.filter_cons, decide_eq_false he,
          Bool.false_and, Bool.false_eq_true, if_false]
        exact ih _ k
    | some v =>
      have hr : getOrCompute c k' f = (v, c, false) := by
        unfold getOrCompute; rw [hl]
      simp only [runCalls, hr, List.filter_cons, Bool.and_false,
        Bool.false_eq_true, if_false]
      exact ih c k

end MemoizerLemmas

theorem processAntibiogram_fst_length (predict : List Char → PredictResult)
    (isoM : List MutRow) (dg : List (String × List (List Char))) :
    ((processAntibiogram predict isoM dg).1).length = dg.length := by
  simp [processAntibiogram]

theorem gWTVerdict_iff_of_length (res : List String) (h : res.length = 9) :
    gWTVerdict res = true ↔
      ((∀ i, i < 4 → res.getD i "" = "S") ∧
       (∀ i, 4 ≤ i → i < 9 → (res.getD i "" = "S" ∨ res.getD i "" = "U"))) := by
  rcases res with _ | ⟨a, res⟩; · simp at h
  rcases res with _ | ⟨b, res⟩; · simp at h
  rcases res with _ | ⟨c, res⟩; · simp at h
  rcases res with _ | ⟨d, res⟩; · simp at h
  rcases res with _ | ⟨e, res⟩; · simp at h
  rcases res with _ | ⟨f, res⟩; · simp at h
  rcases res with _ | ⟨g, res⟩; · simp at h
  rcases res with _ | ⟨h1, res⟩; · simp at h
  rcases res with _ | ⟨i1, res⟩; · simp at h
  have hnil : res = [] := by
    have h0 : res.length = 0 := by simpa using h
    exact List.length_eq_zero.mp h0
  subst hnil
  constructor
  · intro hv
    simp [gWTVerdict] at hv
    refine ⟨fun i hi => ?_, fun i h4 h9 => ?_⟩ <;> interval_cases i <;>
      simp only [List.getD_cons_zero, List.getD_cons_succ] <;> tauto
  · rintro ⟨hA, hB⟩
    have e0 := hA 0 (by omega)
    have e1 := hA 1 (by omega)
    have e2 := hA 2 (by omega)
    have e3 := hA 3 (by omega)
    have e4 := hB 4 (by omega) (by omega)
    have e5 := hB 5 (by omega) (by omega)
    have e6 := hB 6 (by omega) (by omega)
    have e7 := hB 7 (by omega) (by omega)
    have e8 := hB 8 (by omega) (by omega)
    simp only [List.getD_cons_zero, List.getD_cons_succ] at e0 e1 e2 e3 e4 e5 e6 e7 e8
    simp [gWTVerdict]
    tauto

/-! ## Claim theorems -/

/-- C3: the Drug-Gene Resistance Mapper (`erj2022_WT.inf_vars`) takes each
catalogue row's gene to be the text before `@`, takes the resistance genes
to be exactly the genes with at least one row predicting `R` for any drug,
maps each panel drug to the subset of resistance genes having a row for
that drug, returns the input mutations restricted to resistance genes, and
on the three-row example catalogue yields `DRUG1 -> {geneA}` and
`DRUG2 -> {geneA}`. -/
theorem infVars_drug_gene_mapper :
    (∀ (cat : List CatRow) (g : List Char),
       g ∈ RGenes cat ↔ ∃ r ∈ cat, r.prediction = "R" ∧ rowGene r = g) ∧
    (∀ (cat : List CatRow) (d : String) (g : List Char),
       g ∈ drugGenes cat d ↔
         g ∈ RGenes cat ∧ ∃ r ∈ cat, r.drug = d ∧ rowGene r = g) ∧
    (∀ (cat : List CatRow) (drugs : List String) (mutations : List MutRow)
       (m : MutRow),
       m ∈ (infVars cat drugs mutations).1 ↔
         m ∈ mutations ∧ m.gene ∈ RGenes cat) ∧
    (∀ (cat : List CatRow) (drugs : List String) (mutations : List MutRow),
       (infVars cat drugs mutations).2 = drugs.map (fun d => (d, drugGenes cat d))) ∧
    (drugGenes exCat "DRUG1" = ["geneA".data] ∧
     drugGenes exCat "DRUG2" = ["geneA".data]) :=
  ⟨mem_RGenes_iff, mem_drugGenes_iff, mem_infVars_fst,
   fun _ _ _ => rfl, by decide, by decide⟩

/-- C2: `nonsilent_WT.identify` classifies a sample wild-type exactly when
it has no non-missing mutation records or every mutation's variant-notation
suffix (the text after `@`) has equal first and last symbols, and classifies
it mutant as soon as one suffix's first and last symbols differ.  The
hypothesis restricts to notations with a nonempty suffix, the shape
`GENE@CHANGE` guaranteed by the data model (on an empty suffix the Python
indexing `suffix[0]` raises `IndexError`, modelled by `none`). -/
theorem nonsilent_wt_iff (muts : List (Option (List Char)))
    (h : ∀ m ∈ muts.filterMap id, varSuffix m ≠ []) :
    (nonsilentSample muts = some true ↔
       (muts.filterMap id = [] ∨
        ∀ m ∈ muts.filterMap id,
          (varSuffix m).head? = (varSuffix m).getLast?)) ∧
    ((∃ m ∈ muts.filterMap id,
        (varSuffix m).head? ≠ (varSuffix m).getLast?) →
      nonsilentSample muts = some false) := by
  unfold nonsilentSample
  by_cases he : muts.filterMap id = []
  · rw [he]
    constructor
    · simp
    · rintro ⟨m, hm, -⟩
      cases hm
  · rw [if_neg (by simpa [List.isEmpty_iff] using he)]
    have hs := allSilent_spec (muts.filterMap id) h
    constructor
    · rw [hs.1]
      constructor
      · intro hall; exact Or.inr hall
      · rintro (hc | hall)
        · exact absurd hc he
        · exact hall
    · intro hex; exact hs.2.mpr hex

/-- C2 witness: a sample whose non-missing mutations all have synonymous
notations (`A@c1c`, `B@dd`) is classified wild-type. -/
theorem nonsilent_wt_iff_witness :
    nonsilentSample [some "A@c1c".data, none, some "B@dd".data] = some true :=
  (nonsilent_wt_iff [some "A@c1c".data, none, some "B@dd".data]
    (by decide)).1.mpr (Or.inr (by decide))

/-- C8(counterexample): the claim says a mutation without `@` is treated as
non-synonymous, making its sample mutant; but on the separator-free
notation `ABA` (equal first and last symbols) the classifier marks the
sample wild-type, not mutant. -/
theorem no_separator_silent_counterexample :
    ('@' ∉ "ABA".data) ∧
    nonsilentSample [some "ABA".data] = some true ∧
    nonsilentSample [some "ABA".data] ≠ some false := by decide

/-- C8(amended): for a nonempty variant notation lacking `@`, the
classifier does not crash; the whole notation is used as the suffix and
the ordinary first-vs-last-symbol test applies, so a sample consisting of
such a mutation is classified mutant exactly when the notation's first and
last symbols differ. -/
theorem no_separator_whole_string_test (m : List Char)
    (hat : '@' ∉ m) (hne : m ≠ []) :
    varSuffix m = m ∧
    (silentCheck m).isSome = true ∧
    (nonsilentSample [some m] = some true ↔ m.head? = m.getLast?) ∧
    (m.head? ≠ m.getLast? → nonsilentSample [some m] = some false) := by
  have hsuf : varSuffix m = m := by
    rw [varSuffix, splitOnChar_of_not_mem '@' m hat]
    rfl
  have hsne : varSuffix m ≠ [] := by rw [hsuf]; exact hne
  have hnm : ([m] : List (List Char)) = [some m].filterMap id := by simp
  have hspec := allSilent_spec [m] (by intro x hx; rw [List.mem_singleton] at hx; rw [hx]; exact hsne)
  refine ⟨hsuf, ?_, ?_, ?_⟩
  · rw [silentCheck_of_ne_nil m hsne]; rfl
  · unfold nonsilentSample
    rw [← hnm]
    rw [if_neg (by simp)]
    rw [hspec.1]
    simp [hsuf]
  · intro hne'
    unfold nonsilentSample
    rw [← hnm]
    rw [if_neg (by simp)]
    exact hspec.2.mpr ⟨m, by simp, by rw [hsuf]; exact hne'⟩

/-- C8 witness: the separator-free notation `AB` has differing first and
last symbols, so its sample is classified mutant without crashing. -/
theorem no_separator_whole_string_test_witness :
    nonsilentSample [some "AB".data] = some false :=
  (no_separator_whole_string_test "AB".data (by decide) (by decide)).2.2.2
    (by decide)

/-- C6: for a fixed key, every `getOrCompute` call in a sequence returns
the identical call (the key's pure prediction), the underlying compute
function runs at most once over the cache's lifetime, and a redundant
store of the key's value leaves every stored entry's lookup unchanged.
The hypothesis is the cache invariant — every stored value is its key's
prediction — which holds for the initial empty cache and is preserved by
every call. -/
theorem memoizer_at_most_once {κ : Type} [DecidableEq κ] (f : κ → String)
    (c : List (κ × String)) (ks : List κ) (k : κ)
    (hinv : ∀ e ∈ c, e.2 = f e.1) :
    (∀ t ∈ (runCalls f c ks).1, t.2.1 = f t.1) ∧
    countComputes f c ks k ≤ 1 ∧
    (∀ k', (cacheLookup c k').isSome = true →
       cacheLookup ((k, f k) :: c) k' = cacheLookup c k') := by
  refine ⟨runCalls_values f ks c hinv, countComputes_le_one f ks c k, ?_⟩
  intro k' h
  rw [cacheLookup]
  by_cases he : k = k'
  · subst he
    cases hv : cacheLookup c k with
    | none => rw [hv] at h; simp at h
    | some v =>
      have hfv : v = f k := cacheLookup_some f c hinv k v hv
      rw [if_pos rfl, hfv]
  · rw [if_neg he]

/-- C6 witness: three calls at one concrete key from the empty cache
compute at most once. -/
theorem memoizer_at_most_once_witness :
    countComputes predR [] [key0, key0, key0] key0 ≤ 1 :=
  (memoizer_at_most_once predR [] [key0, key0, key0] key0 (by simp)).2.1

/-- C7(counterexample): the claim says a key computed in one run is served
from the durable cache in subsequent runs without recomputation; but the
cache is cleared at process start, so a second run over the persisted
cache of a first run recomputes the same key (its computed flag is `true`
again). -/
theorem processRun_recomputes_counterexample :
    (processRun predR (processRun predR [] [key0]).2 [key0]).1 =
      [(key0, "R", true)] ∧
    ¬ (∀ t ∈ (processRun predR (processRun predR [] [key0]).2 [key0]).1,
         t.2.2 = false) := by decide

/-- C7(amended): the memoizer's durable store is cleared once at process
start (`memory.clear` at import, wts.py line 9), so a run's behaviour is
independent of whatever a previous run persisted — no entry from a
previous run, hence from a previous catalogue version, is ever served —
and within the run each key's value is its own catalogue's prediction,
computed at most once. -/
theorem processRun_clear_semantics {κ : Type} [DecidableEq κ]
    (f : κ → String) (persisted : List (κ × String)) (keys : List κ) (k : κ) :
    processRun f persisted keys = processRun f [] keys ∧
    (∀ t ∈ (processRun f persisted keys).1, t.2.1 = f t.1) ∧
    ((processRun f persisted keys).1.filter
       (fun t => decide (t.1 = k) && t.2.2)).length ≤ 1 :=
  ⟨rfl, runCalls_values f keys [] (by simp),
   countComputes_le_one f keys [] k⟩

/-- C1: for every sample present in the antibiogram mapping produced by
the inferred-antibiogram pipeline over the fixed 9-drug panel, the
antibiogram has one call per panel drug, the pipeline's verdict for the
sample is `gWTVerdict` of its antibiogram, and that verdict is `true` iff
every call at positions 0..3 is `S` and every call at positions 4..8 is
`S` or `U`; in particular an `R` call at a second-line position forces the
verdict `false` (while a `U` there is allowed by the iff). -/
theorem erj2022_wt_verdict (predict : List Char → PredictResult)
    (mutations : List MutRow) (cat : List CatRow) (cores : Nat)
    (abs : List (String × List String)) (uid : String) (res : List String)
    (hab : parallel_antibiogram predict (infVars cat erj2022Drugs mutations).1
             (infVars cat erj2022Drugs mutations).2 cores = Except.ok abs)
    (hmem : (uid, res) ∈ abs) :
    res.length = 9 ∧
    erj2022_identify predict mutations cat cores =
      Except.ok (abs.map (fun ab => (ab.1, gWTVerdict ab.2))) ∧
    (uid, gWTVerdict res) ∈ abs.map (fun ab => (ab.1, gWTVerdict ab.2)) ∧
    (gWTVerdict res = true ↔
       ((∀ i, i < 4 → res.getD i "" = "S") ∧
        (∀ i, 4 ≤ i → i < 9 → (res.getD i "" = "S" ∨ res.getD i "" = "U")))) ∧
    ((∃ i, 4 ≤ i ∧ i < 9 ∧ res.getD i "" = "R") → gWTVerdict res = false) := by
  have hres : res.length = 9 := by
    have habs : abs = ((uniqueUids (infVars cat erj2022Drugs mutations).1).map
        (fun u => (u, isoMutsOf (infVars cat erj2022Drugs mutations).1 u))).map
        (fun t => (t.1,
          (processAntibiogram predict t.2 (infVars cat erj2022Drugs mutations).2).1)) := by
      by_cases h0 : requestedPoolSize (infVars cat erj2022Drugs mutations).1 cores = 0
      · rw [parallel_antibiogram.eq_def, if_pos h0] at hab
        cases hab
      · rw [parallel_antibiogram.eq_def, if_neg h0] at hab
        injection hab with h
        rw [← h]
    subst habs
    rcases List.mem_map.mp hmem with ⟨t, _, hte⟩
    have h2 : (processAntibiogram predict t.2
        (infVars cat erj2022Drugs mutations).2).1 = res := congrArg Prod.snd hte
    rw [← h2, processAntibiogram_fst_length]
    rfl
  refine ⟨hres, ?_, List.mem_map_of_mem _ hmem,
    gWTVerdict_iff_of_length res hres, ?_⟩
  · simp only [erj2022_identify]
    rw [hab]
  · rintro ⟨i, h4, h9, hR⟩
    cases hg : gWTVerdict res with
    | false => rfl
    | true =>
      have hiff := (gWTVerdict_iff_of_length res hres).mp hg
      have hcall := hiff.2 i h4 h9
      rw [hR] at hcall
      exact absurd hcall (by decide)

/-- C1 witness: on a concrete one-sample run whose antibiogram is
`[R,S,S,S,S,S,S,S,S]`, the theorem applies and the pipeline's verdict
mapping is as predicted. -/
theorem erj2022_wt_verdict_witness :
    (["R", "S", "S", "S", "S", "S", "S", "S", "S"] : List String).length = 9 ∧
    erj2022_identify constR mutations0 cat0 4 =
      Except.ok ([("s2", ["R", "S", "S", "S", "S", "S", "S", "S", "S"])].map
        (fun ab => (ab.1, gWTVerdict ab.2))) := by
  have h := erj2022_wt_verdict constR mutations0 cat0 4
    [("s2", ["R", "S", "S", "S", "S", "S", "S", "S", "S"])] "s2"
    ["R", "S", "S", "S", "S", "S", "S", "S", "S"] (by decide) (by decide)
  exact ⟨h.1, h.2.1⟩

/-- C4(counterexample): the claim says a sample with zero mutations in any
resistance-associated gene gets an all-`Susceptible` antibiogram from the
pipeline; but such a sample (`s1`, whose only mutation is in `geneX`,
which is not a resistance gene of `cat0`) is filtered out before dispatch
and receives no entry at all in the pipeline's verdict mapping. -/
theorem filtered_sample_absent_counterexample :
    (mutations0 = [⟨"s1", "geneX".data, some "geneX@A1B".data⟩,
                   ⟨"s2", "geneA".data, some "geneA@X1Y".data⟩]) ∧
    "geneX".data ∉ RGenes cat0 ∧
    erj2022_identify constR mutations0 cat0 4 = Except.ok [("s2", false)] ∧
    "s1" ∉ ([("s2", false)].map Prod.fst) := by decide

/-- C4(amended): a sample with zero mutations in any resistance-associated
gene is excluded by the pre-dispatch filter of `inf_vars`, so the pipeline
gives it no antibiogram entry and the Catalogue Gateway is never invoked
on its behalf; moreover for any mutation set with no resistance-gene
mutation, `process_antibiogram` over the panel's drug-gene map returns the
all-`Susceptible` antibiogram with zero Catalogue Gateway invocations. -/
theorem no_resistance_gene_sample (predict : List Char → PredictResult)
    (mutations : List MutRow) (cat : List CatRow) (uid : String)
    (h : ∀ m ∈ mutations, m.uniqueid = uid → m.gene ∉ RGenes cat) :
    uid ∉ uniqueUids (infVars cat erj2022Drugs mutations).1 ∧
    (∀ isoM : List MutRow, (∀ m ∈ isoM, m.gene ∉ RGenes cat) →
       processAntibiogram predict isoM (infVars cat erj2022Drugs mutations).2 =
         (List.replicate 9 "S", 0)) := by
  constructor
  · intro hmem
    unfold uniqueUids at hmem
    rw [List.mem_dedup] at hmem
    rcases List.mem_map.mp hmem with ⟨m, hm, huid⟩
    rcases (mem_infVars_fst cat erj2022Drugs mutations m).mp hm with ⟨hmm, hg⟩
    exact h m hmm huid hg
  · intro isoM hiso
    have hdc : ∀ d, drugCall predict isoM d (drugGenes cat d) = ("S", 0) := by
      intro d
      have hf : isoM.filter (fun m => decide (m.gene ∈ drugGenes cat d)) = [] := by
        rw [List.filter_eq_nil_iff]
        intro m hm
        simp only [decide_eq_true_eq]
        intro hmem
        exact hiso m hm ((mem_drugGenes_iff cat d m.gene).mp hmem).1
      unfold drugCall
      rw [hf]
      rfl
    have h2 : (infVars cat erj2022Drugs mutations).2 =
        erj2022Drugs.map (fun d => (d, drugGenes cat d)) := rfl
    rw [h2, show (List.replicate 9 "S" : List String) =
      ["S", "S", "S", "S", "S", "S", "S", "S", "S"] from rfl]
    simp [processAntibiogram, erj2022Drugs, hdc]

/-- C4 witness: sample `s1` of the concrete table, having no mutation in a
resistance gene of `cat0`, is absent from the dispatched sample set. -/
theorem no_resistance_gene_sample_witness :
    "s1" ∉ uniqueUids (infVars cat0 erj2022Drugs mutations0).1 :=
  (no_resistance_gene_sample constR mutations0 cat0 "s1" (by decide)).1

/-- C5(counterexample): the claim says a missing *or empty* variant
notation yields `Susceptible` without consulting the catalogue; but
`pd.isna("")` is `False`, so a present-but-empty notation is sent to the
catalogue: with an oracle answering `R`, the per-mutation call on an
empty notation is `R` with one gateway invocation, not `("S", 0)`. -/
theorem empty_notation_consults_catalogue :
    mutationCall constR "RIF" ⟨"s1", "geneA".data, some []⟩ = ("R", 1) ∧
    mutationCall constR "RIF" ⟨"s1", "geneA".data, some []⟩ ≠ ("S", 0) := by
  decide

/-- C5(amended): a missing (null) variant notation yields `Susceptible`
with no catalogue invocation; any present notation — the empty string
included — is passed to the catalogue, whose duck-typed result is
resolved as: per-drug mapping entry for the drug, `Susceptible` when the
drug is absent from the mapping, and a scalar result used directly. -/
theorem mutationCall_spec (predict : List Char → PredictResult)
    (drug : String) (m : MutRow) :
    (m.mutation = none → mutationCall predict drug m = ("S", 0)) ∧
    (∀ var, m.mutation = some var →
       mutationCall predict drug m = (resolvePredict (predict var) drug, 1)) ∧
    (∀ pm : List (String × String), (∀ e ∈ pm, e.1 ≠ drug) →
       resolvePredict (.perDrug pm) drug = "S") ∧
    (∀ (v : String) (pm : List (String × String)),
       resolvePredict (.perDrug ((drug, v) :: pm)) drug = v) ∧
    (∀ s : String, resolvePredict (.scalar s) drug = s) := by
  refine ⟨?_, ?_, ?_, ?_, fun s => rfl⟩
  · intro h; unfold mutationCall; rw [h]
  · intro var h; unfold mutationCall; rw [h]
  · intro pm h
    unfold resolvePredict
    induction pm with
    | nil => rfl
    | cons e es ih =>
      simp only [dictGet]
      rw [if_neg (h e (by simp))]
      exact ih (fun x hx => h x (List.mem_cons_of_mem _ hx))
  · intro v pm
    unfold resolvePredict
    simp [dictGet]

/-- C5 witness: a missing notation yields `("S", 0)`; a per-drug mapping
without the drug defaults to `S`, with the drug present returns its entry,
and a scalar result is used directly. -/
theorem mutationCall_spec_witness :
    mutationCall constR "RIF" ⟨"s1", "geneA".data, none⟩ = ("S", 0) ∧
    resolvePredict (.perDrug [("INH", "R")]) "RIF" = "S" ∧
    resolvePredict (.perDrug [("RIF", "U")]) "RIF" = "U" ∧
    resolvePredict (.scalar "U") "RIF" = "U" :=
  ⟨(mutationCall_spec constR "RIF" ⟨"s1", "geneA".data, none⟩).1 rfl,
   (mutationCall_spec constR "RIF" ⟨"s1", "geneA".data, none⟩).2.2.1
     [("INH", "R")] (by decide),
   (mutationCall_spec constR "RIF" ⟨"s1", "geneA".data, none⟩).2.2.2.1
     "U" [],
   (mutationCall_spec constR "RIF" ⟨"s1", "geneA".data, none⟩).2.2.2.2 "U"⟩

/-- C10: `parallel_antibiogram` on an empty mutations table requests a
pool of `min(cores, 0) = 0` worker processes, which raises
(`multiprocessing.Pool` rejects `processes < 1`) instead of returning an
empty antibiogram mapping; a non-empty table (with at least one core)
makes the operation succeed. -/
theorem parallel_antibiogram_empty_table :
    (∀ (predict : List Char → PredictResult)
       (dg : List (String × List (List Char))) (cores : Nat),
       requestedPoolSize ([] : List MutRow) cores = 0 ∧
       parallel_antibiogram predict [] dg cores =
         Except.error "Number of processes must be at least 1") ∧
    (∀ (predict : List Char → PredictResult) (mutations : List MutRow)
       (dg : List (String × List (List Char))) (cores : Nat),
       mutations ≠ [] → 1 ≤ cores →
       ∃ abs, parallel_antibiogram predict mutations dg cores = Except.ok abs) := by
  constructor
  · intro predict dg cores
    constructor
    · simp [requestedPoolSize, uniqueUids]
    · unfold parallel_antibiogram
      rw [if_pos (by simp [requestedPoolSize, uniqueUids])]
  · intro predict mutations dg cores hne hc
    have hu : uniqueUids mutations ≠ [] := by
      rcases mutations with _ | ⟨m, rest⟩
      · exact absurd rfl hne
      · intro hd
        have : m.uniqueid ∈ uniqueUids (m :: rest) := by
          simp [uniqueUids, List.mem_dedup]
        rw [hd] at this
        cases this
    have hlen : 1 ≤ (uniqueUids mutations).length :=
      Nat.one_le_iff_ne_zero.mpr (fun h0 => hu (List.length_eq_zero.mp h0))
    have hmin : requestedPoolSize mutations cores ≠ 0 := by
      unfold requestedPoolSize
      intro h0
      rcases Nat.min_eq_zero_iff.mp h0 with h | h
      · omega
      · omega
    refine ⟨((uniqueUids mutations).map
        (fun uid => (uid, isoMutsOf mutations uid))).map
        (fun t => (t.1, (processAntibiogram predict t.2 dg).1)), ?_⟩
    simp only [parallel_antibiogram]
    rw [if_neg hmin]

/-- C10 witness: a one-row table with four cores succeeds. -/
theorem parallel_antibiogram_empty_table_witness :
    ∃ abs, parallel_antibiogram constR [⟨"s1", "geneA".data, none⟩] [] 4 =
      Except.ok abs :=
  parallel_antibiogram_empty_table.2 constR [⟨"s1", "geneA".data, none⟩] [] 4
    (by decide) (by decide)

/-- C9: the per-drug aggregation of `process_antibiogram` depends only on
which of `R`, `U`, `S` are present among the per-mutation calls (any `R`
yields `R`; else any `U` yields `U`; else `S`), and is therefore
order-independent. -/
theorem aggregate_order_independent :
    (∀ l l' : List String, (∀ c, c ∈ l ↔ c ∈ l') → aggregate l = aggregate l') ∧
    (∀ l l' : List String, l.Perm l' → aggregate l = aggregate l') ∧
    (∀ l : List String, "R" ∈ l → aggregate l = "R") ∧
    (∀ l : List String, "R" ∉ l → "U" ∈ l → aggregate l = "U") ∧
    (∀ l : List String, "R" ∉ l → "U" ∉ l → aggregate l = "S") := by
  have hmem : ∀ l l' : List String, (∀ c, c ∈ l ↔ c ∈ l') →
      aggregate l = aggregate l' := by
    intro l l' h
    unfold aggregate
    by_cases hR : "R" ∈ l
    · rw [if_pos hR, if_pos ((h "R").mp hR)]
    · rw [if_neg hR, if_neg (fun hc => hR ((h "R").mpr hc))]
      by_cases hU : "U" ∈ l
      · rw [if_pos hU, if_pos ((h "U").mp hU)]
      · rw [if_neg hU, if_neg (fun hc => hU ((h "U").mpr hc))]
  refine ⟨hmem, fun l l' hp => hmem l l' (fun c => hp.mem_iff), ?_, ?_, ?_⟩
  · intro l hR; unfold aggregate; rw [if_pos hR]
  · intro l hR hU; unfold aggregate; rw [if_neg hR, if_pos hU]
  · intro l hR hU; unfold aggregate; rw [if_neg hR, if_neg hU]

/-- C9 witness: the aggregation agrees on two reorderings with repetition,
and a list containing `R` aggregates to `R`. -/
theorem aggregate_order_independent_witness :
    aggregate ["S", "U"] = aggregate ["U", "S", "U"] ∧
    aggregate ["U", "S", "R"] = "R" := by
  constructor
  · refine aggregate_order_independent.1 _ _ ?_
    intro c
    constructor <;> intro hc <;> simp only [List.mem_cons, List.not_mem_nil,
      or_false] at hc ⊢ <;> tauto
  · exact aggregate_order_independent.2.2.1 _ (by simp)

end ECOFFitter
